import Mathlib

/-!
Verification development for the ray-tracing renderer (shape composites,
intersection filtering, refraction bookkeeping, shading recursion and the
parallel render loop).  The Rust sources are shallowly embedded: `f64`
arithmetic is modelled over an arbitrary linear ordered field `K`
(instantiated at `ℚ` for concrete evaluation and at `ℝ` where properties of
`cos`/`sqrt` matter); the IEEE special values that the bounding-box code
relies on are modelled by the explicit extension type `XF` below; trait
objects (`Arc<dyn Shape>`, `Arc<dyn Material>`) are modelled by records of
their observable methods; `Arc::ptr_eq` is modelled by a numeric identity
field.
-/

namespace RT

/-- EPSILON from src/lib.rs: `static EPSILON: f64 = 0.00001`. -/
def EPSILON {K : Type} [LinearOrderedField K] : K := 1 / 100000

/-- Model of the IEEE `f64` special values used by BoundingBox::check_axis:
a value is NaN, minus infinity, a finite number, or plus infinity. -/
inductive XF (K : Type) where
  | nan : XF K
  | ninf : XF K
  | fin (q : K) : XF K
  | pinf : XF K
deriving DecidableEq

/-- IEEE strict less-than: any comparison involving NaN is false. -/
def XF.lt {K : Type} [LinearOrderedField K] : XF K → XF K → Bool
  | .nan, _ => false
  | _, .nan => false
  | .ninf, .ninf => false
  | .ninf, _ => true
  | _, .ninf => false
  | .pinf, _ => false
  | .fin _, .pinf => true
  | .fin a, .fin b => decide (a < b)

/-- IEEE less-or-equal: any comparison involving NaN is false. -/
def XF.le {K : Type} [LinearOrderedField K] : XF K → XF K → Bool
  | .nan, _ => false
  | _, .nan => false
  | .ninf, _ => true
  | _, .ninf => false
  | _, .pinf => true
  | .pinf, _ => false
  | .fin a, .fin b => decide (a ≤ b)

/-- Rust f64::min: returns the other operand when one is NaN. -/
def XF.fmin {K : Type} [LinearOrderedField K] : XF K → XF K → XF K
  | .nan, y => y
  | x, .nan => x
  | .ninf, _ => .ninf
  | _, .ninf => .ninf
  | .pinf, y => y
  | x, .pinf => x
  | .fin a, .fin b => .fin (min a b)

/-- Rust f64::max: returns the other operand when one is NaN. -/
def XF.fmax {K : Type} [LinearOrderedField K] : XF K → XF K → XF K
  | .nan, y => y
  | x, .nan => x
  | .pinf, _ => .pinf
  | _, .pinf => .pinf
  | .ninf, y => y
  | x, .ninf => x
  | .fin a, .fin b => .fin (max a b)

/-- IEEE subtraction of a finite value from an extended value (the only
subtraction the bounding-box code performs: box coordinate minus finite ray
origin). -/
def XF.subFin {K : Type} [LinearOrderedField K] : XF K → K → XF K
  | .nan, _ => .nan
  | .ninf, _ => .ninf
  | .pinf, _ => .pinf
  | .fin a, b => .fin (a - b)

/-- IEEE division by a finite non-zero value (used when `|direction| >=
EPSILON`); division of an infinity keeps or flips its sign. -/
def XF.divFin {K : Type} [LinearOrderedField K] : XF K → K → XF K
  | .nan, _ => .nan
  | .ninf, d => if 0 < d then .ninf else if d < 0 then .pinf else .nan
  | .pinf, d => if 0 < d then .pinf else if d < 0 then .ninf else .nan
  | .fin a, d => .fin (a / d)

/-- IEEE multiplication by plus infinity (the `tmin_numerator * f64::INFINITY`
branch of check_axis): positive gives +inf, negative gives -inf, zero gives
NaN. -/
def XF.mulPinf {K : Type} [LinearOrderedField K] : XF K → XF K
  | .nan => .nan
  | .ninf => .ninf
  | .pinf => .pinf
  | .fin a => if 0 < a then .pinf else if a < 0 then .ninf else .nan

/-- A point of extended coordinates (bounding-box corners may be infinite). -/
structure XPt (K : Type) where
  x : XF K
  y : XF K
  z : XF K
deriving DecidableEq

/-- Embedding of src/src/tuples/tuple.rs `Tuple` (finite f64 components). -/
structure Tuple (K : Type) where
  x : K
  y : K
  z : K
  w : K
deriving DecidableEq

/-- Tuple::point. -/
def Tuple.point {K : Type} [LinearOrderedField K] (x y z : K) : Tuple K :=
  ⟨x, y, z, 1⟩

/-- Tuple::vector. -/
def Tuple.vector {K : Type} [LinearOrderedField K] (x y z : K) : Tuple K :=
  ⟨x, y, z, 0⟩

/-- Componentwise addition (impl Add for Tuple). -/
def Tuple.add {K : Type} [LinearOrderedField K] (a b : Tuple K) : Tuple K :=
  ⟨a.x + b.x, a.y + b.y, a.z + b.z, a.w + b.w⟩

/-- Componentwise subtraction (impl Sub for Tuple). -/
def Tuple.sub {K : Type} [LinearOrderedField K] (a b : Tuple K) : Tuple K :=
  ⟨a.x - b.x, a.y - b.y, a.z - b.z, a.w - b.w⟩

/-- Negation (impl Neg for Tuple). -/
def Tuple.neg {K : Type} [LinearOrderedField K] (a : Tuple K) : Tuple K :=
  ⟨-a.x, -a.y, -a.z, -a.w⟩

/-- Scalar multiplication (impl Mul f64 for Tuple). -/
def Tuple.smul {K : Type} [LinearOrderedField K] (a : Tuple K) (s : K) : Tuple K :=
  ⟨a.x * s, a.y * s, a.z * s, a.w * s⟩

/-- Tuple::dot. -/
def Tuple.dot {K : Type} [LinearOrderedField K] (a b : Tuple K) : K :=
  a.x * b.x + a.y * b.y + a.z * b.z + a.w * b.w

/-- Tuple::reflect: `incoming - (normal * 2.0 * dot(incoming, normal))`. -/
def Tuple.reflect {K : Type} [LinearOrderedField K] (incoming normal : Tuple K) : Tuple K :=
  incoming.sub ((normal.smul 2).smul (Tuple.dot incoming normal))

/-- Tuple::magnitude, with the square root supplied by the numeric substrate
(`sqrtF` models `f64::sqrt`). -/
def Tuple.magnitude {K : Type} [LinearOrderedField K] (sqrtF : K → K) (a : Tuple K) : K :=
  sqrtF (a.x * a.x + a.y * a.y + a.z * a.z + a.w * a.w)

/-- Tuple::normalize. -/
def Tuple.normalize {K : Type} [LinearOrderedField K] (sqrtF : K → K) (a : Tuple K) : Tuple K :=
  let m := a.magnitude sqrtF
  ⟨a.x / m, a.y / m, a.z / m, a.w / m⟩

/-- Embedding of src/src/tuples/ray.rs `Ray`. -/
structure Ray (K : Type) where
  origin : Tuple K
  direction : Tuple K

/-- Ray::position: `origin + direction * time`. -/
def Ray.position {K : Type} [LinearOrderedField K] (r : Ray K) (time : K) : Tuple K :=
  r.origin.add (r.direction.smul time)

/-- Embedding of src/src/tuples/color.rs `Color`. -/
structure Color (K : Type) where
  red : K
  green : K
  blue : K
deriving DecidableEq

/-- Color::black. -/
def Color.black {K : Type} [LinearOrderedField K] : Color K := ⟨0, 0, 0⟩

/-- Componentwise color addition. -/
def Color.add {K : Type} [LinearOrderedField K] (a b : Color K) : Color K :=
  ⟨a.red + b.red, a.green + b.green, a.blue + b.blue⟩

/-- Color scaled by a scalar. -/
def Color.scale {K : Type} [LinearOrderedField K] (a : Color K) (s : K) : Color K :=
  ⟨a.red * s, a.green * s, a.blue * s⟩

/-- Embedding of src/src/tuples/bounding_box.rs `BoundingBox` (corner
coordinates may be the IEEE infinities produced by `BoundingBox::empty`). -/
structure BBox (K : Type) where
  min : XPt K
  max : XPt K
deriving DecidableEq

/-- BoundingBox::empty: min at plus infinity, max at minus infinity. -/
def BBox.empty {K : Type} : BBox K :=
  ⟨⟨.pinf, .pinf, .pinf⟩, ⟨.ninf, .ninf, .ninf⟩⟩

/-- BoundingBox::add_point. -/
def BBox.add_point {K : Type} [LinearOrderedField K] (b : BBox K) (p : XPt K) : BBox K :=
  ⟨⟨b.min.x.fmin p.x, b.min.y.fmin p.y, b.min.z.fmin p.z⟩,
   ⟨b.max.x.fmax p.x, b.max.y.fmax p.y, b.max.z.fmax p.z⟩⟩

/-- impl Add for BoundingBox: `self.add_point(rhs.min).add_point(rhs.max)`. -/
def BBox.union {K : Type} [LinearOrderedField K] (b rhs : BBox K) : BBox K :=
  (b.add_point rhs.min).add_point rhs.max

/-- BoundingBox::contains_box. -/
def BBox.contains_box {K : Type} [LinearOrderedField K] (b other : BBox K) : Bool :=
  XF.le b.min.x other.min.x && XF.le other.max.x b.max.x &&
  XF.le b.min.y other.min.y && XF.le other.max.y b.max.y &&
  XF.le b.min.z other.min.z && XF.le other.max.z b.max.z

/-- BoundingBox::transform specialised to a pointwise corner map `f` (the
matrix-vector product is part of the external numeric substrate): rebuilds
the box from its 8 transformed corners starting from the empty box. -/
def BBox.transformWith {K : Type} [LinearOrderedField K] (f : XPt K → XPt K) (b : BBox K) : BBox K :=
  let p1 := b.min
  let p2 : XPt K := ⟨b.min.x, b.min.y, b.max.z⟩
  let p3 : XPt K := ⟨b.min.x, b.max.y, b.min.z⟩
  let p4 : XPt K := ⟨b.min.x, b.max.y, b.max.z⟩
  let p5 : XPt K := ⟨b.max.x, b.min.y, b.min.z⟩
  let p6 : XPt K := ⟨b.max.x, b.min.y, b.max.z⟩
  let p7 : XPt K := ⟨b.max.x, b.max.y, b.min.z⟩
  let p8 := b.max
  ((((((((BBox.empty.add_point (f p1)).add_point (f p2)).add_point
    (f p3)).add_point (f p4)).add_point (f p5)).add_point
    (f p6)).add_point (f p7)).add_point (f p8))

/-- BoundingBox::check_axis: slab test for one axis, with the IEEE
infinity/NaN behaviour of the `direction ≈ 0` branch made explicit. -/
def BBox.check_axis {K : Type} [LinearOrderedField K] (origin direction : K)
    (mn mx : XF K) : XF K × XF K :=
  let tmin_numerator := mn.subFin origin
  let tmax_numerator := mx.subFin origin
  let tmin := if EPSILON ≤ |direction| then tmin_numerator.divFin direction
              else tmin_numerator.mulPinf
  let tmax := if EPSILON ≤ |direction| then tmax_numerator.divFin direction
              else tmax_numerator.mulPinf
  if XF.lt tmax tmin then (tmax, tmin) else (tmin, tmax)

/-- BoundingBox::intersects: combine the three per-axis slab intervals with
the IEEE-`max`/`min` and report a hit unless `tmin > tmax`. -/
def BBox.intersects {K : Type} [LinearOrderedField K] (b : BBox K) (ray : Ray K) : Bool :=
  let xt := BBox.check_axis ray.origin.x ray.direction.x b.min.x b.max.x
  let yt := BBox.check_axis ray.origin.y ray.direction.y b.min.y b.max.y
  let zt := BBox.check_axis ray.origin.z ray.direction.z b.min.z b.max.z
  let tmin := (xt.1.fmax yt.1).fmax zt.1
  let tmax := (xt.2.fmin yt.2).fmin zt.2
  if XF.lt tmax tmin then false else true

/-- Convenience constructor for a finite bounding box. -/
def BBox.ofFin {K : Type} [LinearOrderedField K] (ax ay az bx bby bz : K) : BBox K :=
  ⟨⟨.fin ax, .fin ay, .fin az⟩, ⟨.fin bx, .fin bby, .fin bz⟩⟩

/-- Model of the `Arc<dyn Material>` interface consumed by the world code:
the three scalar coefficients read by reflection/refraction. -/
structure MaterialView (K : Type) where
  reflective : K
  transparency : K
  refractive_index : K

/-- Embedding of src/src/tuples/point_light.rs `PointLight`. -/
structure PLight (K : Type) where
  position : Tuple K
  intensity : Color K

/-- Model of an `Arc<dyn Shape>` as observed through the trait methods the
shading pipeline calls.  `oid` models pointer identity (`Arc::ptr_eq`);
`normal_at` and `lighting` are the abstract trait methods (the smooth
triangle reads only `(u, v)` from the intersection it is handed, so the
normal method receives that pair). -/
structure ObjView (K : Type) where
  oid : ℕ
  material : MaterialView K
  castsShadow : Bool
  normal_at : Tuple K → K × K → Tuple K
  lighting : Tuple K → PLight K → Tuple K → Tuple K → Bool → Color K

/-- Embedding of src/src/tuples/intersection.rs `Intersection`: a time, the
shape reference, and the smooth-triangle barycentric pair. -/
structure Inter (K : Type) where
  time : K
  object : ObjView K
  u : K
  v : K

/-- A default material (Phong::default has reflective 0, transparency 0,
refractive index 1). -/
def MaterialView.dflt {K : Type} [LinearOrderedField K] : MaterialView K := ⟨0, 0, 1⟩

/-- A default shape view, used only as the out-of-range fallback of list
indexing in statements. -/
def ObjView.dflt {K : Type} [LinearOrderedField K] : ObjView K :=
  ⟨0, MaterialView.dflt, true, fun _ _ => ⟨0, 0, 0, 0⟩, fun _ _ _ _ _ => Color.black⟩

/-- Default intersection record (fallback for `List.getD`). -/
def Inter.dflt {K : Type} [LinearOrderedField K] : Inter K := ⟨0, ObjView.dflt, 0, 0⟩

/-- Embedding of src/src/geometry/csg.rs `Operation`. -/
inductive Operation where
  | Difference : Operation
  | Intersection : Operation
  | Union : Operation
deriving DecidableEq

/-- Embedding of CSG::intersection_allowed (src/src/geometry/csg.rs lines
118-137). -/
def intersection_allowed : Operation → Bool → Bool → Bool → Bool
  | .Difference, lhit, inl, inr => (lhit && !inr) || (!lhit && inl)
  | .Intersection, lhit, inl, inr => (lhit && inr) || (!lhit && inl)
  | .Union, lhit, inl, inr => (lhit && !inr) || (!lhit && !inl)

/-- Loop body of CSG::filter_intersections: walk the (time-ordered) list with
the two state booleans, keep an intersection when `intersection_allowed`
says so, then toggle `inl` if the left child was hit and `inr` otherwise.
`leftIncludes` models `self.left().includes(&intersection.object())`. -/
def filter_go {K : Type} (op : Operation) (leftIncludes : ℕ → Bool) :
    Bool → Bool → List (Inter K) → List (Inter K)
  | _, _, [] => []
  | inl, inr, x :: rest =>
    let lhit := leftIncludes x.object.oid
    let keep := intersection_allowed op lhit inl inr
    let inl2 := if lhit then !inl else inl
    let inr2 := if lhit then inr else !inr
    if keep then x :: filter_go op leftIncludes inl2 inr2 rest
    else filter_go op leftIncludes inl2 inr2 rest

/-- Embedding of CSG::filter_intersections (src/src/geometry/csg.rs lines
87-112): both state booleans start false ("begin outside of both children"). -/
def filter_intersections {K : Type} (op : Operation) (leftIncludes : ℕ → Bool)
    (xs : List (Inter K)) : List (Inter K) :=
  filter_go op leftIncludes false false xs

/-- Truth table written from the specification text: Union keeps iff
(left_hit and not inside_right) or (not left_hit and not inside_left);
Intersection keeps iff (left_hit and inside_right) or (not left_hit and
inside_left); Difference keeps iff (left_hit and not inside_right) or
(not left_hit and inside_left). -/
def keep_spec (op : Operation) (lhit inl inr : Bool) : Bool :=
  match op with
  | .Union => decide ((lhit = true ∧ inr = false) ∨ (lhit = false ∧ inl = false))
  | .Intersection => decide ((lhit = true ∧ inr = true) ∨ (lhit = false ∧ inl = true))
  | .Difference => decide ((lhit = true ∧ inr = false) ∨ (lhit = false ∧ inl = true))

/-- Filtering loop written from the specification text: decide inclusion by
the spec truth table, and after each decision toggle inside_left if the left
child was hit and inside_right otherwise. -/
def filter_spec {K : Type} (op : Operation) (leftIncludes : ℕ → Bool) :
    Bool → Bool → List (Inter K) → List (Inter K)
  | _, _, [] => []
  | inl, inr, x :: rest =>
    let lhit := leftIncludes x.object.oid
    let kept := if keep_spec op lhit inl inr then [x] else []
    kept ++ filter_spec op leftIncludes (if lhit then !inl else inl)
      (if lhit then inr else !inr) rest

/-- The implementation table agrees with the spec table on every row. -/
lemma intersection_allowed_eq_keep_spec (op : Operation) (lhit inl inr : Bool) :
    intersection_allowed op lhit inl inr = keep_spec op lhit inl inr := by
  cases op <;> revert lhit inl inr <;> decide

/-- The implementation loop agrees with the spec loop from every state. -/
lemma filter_go_eq_filter_spec {K : Type} (op : Operation) (li : ℕ → Bool)
    (xs : List (Inter K)) : ∀ inl inr,
    filter_go op li inl inr xs = filter_spec op li inl inr xs := by
  induction xs with
  | nil => intro inl inr; rfl
  | cons x rest ih =>
    intro inl inr
    simp only [filter_go, filter_spec, intersection_allowed_eq_keep_spec, ih]
    by_cases h : keep_spec op (li x.object.oid) inl inr = true
    · simp [h]
    · have h2 : keep_spec op (li x.object.oid) inl inr = false :=
        Bool.not_eq_true _ ▸ h
      simp [h2]

/-- C1: for every CSG operation tag and boolean triple the inclusion decision
of `intersection_allowed` equals the spec truth table, and filtering a
time-ordered intersection list walks the list with both state booleans
starting false, toggling inside_left after the decision if the left child
was hit and inside_right otherwise. -/
theorem c1_csg_truth_table_and_filter {K : Type} [LinearOrderedField K] :
    (∀ (lhit inl inr : Bool),
      intersection_allowed Operation.Union lhit inl inr
          = keep_spec Operation.Union lhit inl inr
      ∧ intersection_allowed Operation.Intersection lhit inl inr
          = keep_spec Operation.Intersection lhit inl inr
      ∧ intersection_allowed Operation.Difference lhit inl inr
          = keep_spec Operation.Difference lhit inl inr)
    ∧ (∀ (op : Operation) (li : ℕ → Bool) (xs : List (Inter K)),
        filter_intersections op li xs = filter_spec op li false false xs) := by
  constructor
  · intro lhit inl inr
    exact ⟨intersection_allowed_eq_keep_spec _ _ _ _,
      intersection_allowed_eq_keep_spec _ _ _ _,
      intersection_allowed_eq_keep_spec _ _ _ _⟩
  · intro op li xs
    exact filter_go_eq_filter_spec op li xs false false

/-- Model of a CSG child (`Arc<dyn Shape>`) through the trait methods the
composite calls: its parent-space bounds, its `intersect`, its recursive
`includes` membership test (by pointer identity), and its shadow flag. -/
structure ChildV (K : Type) where
  psb : BBox K
  intersect : Ray K → List (Inter K)
  includes : ℕ → Bool
  casts_shadow : Bool

/-- Embedding of src/src/geometry/csg.rs `CSG` (the fields the claims
observe; the parent pointer and the lazily cached bounds are runtime state
whose value is `CSG.find_bounds`). -/
structure CSG (K : Type) where
  transform : ℕ
  material : MaterialView K
  operation : Operation
  left : ChildV K
  right : ChildV K
  casts_shadow : Bool

/-- CSG::new (src/src/geometry/csg.rs lines 34-59): the shadow flag is the
literal `false`, whatever the operation and children are. -/
def CSG.new {K : Type} (transform : ℕ) (material : MaterialView K)
    (operation : Operation) (left right : ChildV K) : CSG K :=
  { transform := transform
    material := material
    operation := operation
    left := left
    right := right
    casts_shadow := false }

/-- CSG::default (src/src/geometry/csg.rs lines 61-73): identity transform
(opaque handle 0) and Phong::default, delegating to CSG::new. -/
def CSG.default {K : Type} [LinearOrderedField K] (operation : Operation)
    (left right : ChildV K) : CSG K :=
  CSG.new 0 MaterialView.dflt operation left right

/-- C10: every constructible CSG reports casts_shadow = false: both CSG::new
and CSG::default hard-code the flag, regardless of the operation and of the
children's own shadow flags (the children quantified here include ones that
do cast shadows). -/
theorem c10_csg_never_casts_shadow {K : Type} [LinearOrderedField K] :
    ∀ (t : ℕ) (m : MaterialView K) (op : Operation) (l r : ChildV K),
      (CSG.new t m op l r).casts_shadow = false
      ∧ (CSG.default op l r).casts_shadow = false := by
  intro t m op l r
  exact ⟨rfl, rfl⟩

/-- Loop of Intersection::hit (src/src/tuples/intersection.rs lines 32-41):
scan from index `k`, returning the first entry with time strictly above 0
together with its shape's shadow flag. -/
def hit_go {K : Type} [LinearOrderedField K] : ℕ → List (Inter K) → Option (ℕ × Bool)
  | _, [] => none
  | k, x :: rest =>
    if 0 < x.time then some (k, x.object.castsShadow) else hit_go (k + 1) rest

/-- Embedding of Intersection::hit: scan the whole list from index 0. -/
def hit {K : Type} [LinearOrderedField K] (xs : List (Inter K)) : Option (ℕ × Bool) :=
  hit_go 0 xs

lemma hit_go_shift {K : Type} [LinearOrderedField K] (xs : List (Inter K)) :
    ∀ k, hit_go k xs = (hit_go 0 xs).map (fun p => (p.1 + k, p.2)) := by
  induction xs with
  | nil => intro k; rfl
  | cons x rest ih =>
    intro k
    simp only [hit_go]
    by_cases h : 0 < x.time
    · simp [h]
    · simp only [h, if_false]
      rw [ih (k + 1), ih 1, Option.map_map]
      congr 1
      funext p
      simp [Function.comp]
      omega

lemma hit_none_iff {K : Type} [LinearOrderedField K] (xs : List (Inter K)) :
    hit xs = none ↔ ∀ x ∈ xs, x.time ≤ 0 := by
  unfold hit
  induction xs with
  | nil => simp [hit_go]
  | cons x rest ih =>
    simp only [hit_go]
    by_cases h : 0 < x.time
    · simp only [h, if_true]
      constructor
      · intro hc; exact absurd hc (by simp)
      · intro hc
        exact absurd h (not_lt.mpr (hc x (by simp)))
    · rw [hit_go_shift rest 1]
      simp [h, not_lt.mp h, ih]

lemma hit_some_spec {K : Type} [LinearOrderedField K] (xs : List (Inter K)) :
    ∀ i s, hit xs = some (i, s) →
      i < xs.length ∧ 0 < (xs.getD i Inter.dflt).time
      ∧ s = (xs.getD i Inter.dflt).object.castsShadow
      ∧ ∀ j, j < i → (xs.getD j Inter.dflt).time ≤ 0 := by
  unfold hit
  induction xs with
  | nil => intro i s h; exact absurd h (by simp [hit_go])
  | cons x rest ih =>
    intro i s h
    simp only [hit_go] at h
    by_cases hx : 0 < x.time
    · simp [hx] at h
      obtain ⟨h1, h2⟩ := h
      subst h1
      refine ⟨by simp, by simpa using hx, by simp [h2], ?_⟩
      intro j hj
      omega
    · simp only [hx, if_false] at h
      rw [hit_go_shift rest 1] at h
      rcases hrest : hit_go 0 rest with _ | p
      · rw [hrest] at h; exact absurd h (by simp)
      · rw [hrest] at h
        simp at h
        obtain ⟨h1, h2⟩ := h
        obtain ⟨g1, g2, g3, g4⟩ := ih p.1 p.2 hrest
        subst h2
        have hi : i = p.1 + 1 := by omega
        subst hi
        refine ⟨by simpa using g1, by simpa using g2, by simpa using g3, ?_⟩
        intro j hj
        match j with
        | 0 => simpa using not_lt.mp hx
        | j + 1 =>
          have : j < p.1 := by omega
          simpa using g4 j this

/-- C6: on a list sorted ascending by time, hit returns the first entry with
strictly positive time together with its shape's shadow flag, ignoring all
entries with time at most 0; moreover that entry has minimal time among the
positive-time entries, and an empty or all-non-positive list gives none. -/
theorem c6_hit_first_positive {K : Type} [LinearOrderedField K]
    (xs : List (Inter K))
    (hs : List.Pairwise (fun a b : Inter K => a.time ≤ b.time) xs) :
    (hit xs = none ↔ ∀ x ∈ xs, x.time ≤ 0)
    ∧ (∀ i s, hit xs = some (i, s) →
        i < xs.length
        ∧ 0 < (xs.getD i Inter.dflt).time
        ∧ s = (xs.getD i Inter.dflt).object.castsShadow
        ∧ (∀ j, j < i → (xs.getD j Inter.dflt).time ≤ 0)
        ∧ ∀ j, j < xs.length → 0 < (xs.getD j Inter.dflt).time →
            (xs.getD i Inter.dflt).time ≤ (xs.getD j Inter.dflt).time) := by
  refine ⟨hit_none_iff xs, ?_⟩
  intro i s h
  obtain ⟨h1, h2, h3, h4⟩ := hit_some_spec xs i s h
  refine ⟨h1, h2, h3, h4, ?_⟩
  intro j hj hjpos
  rcases lt_trichotomy j i with hlt | heq | hgt
  · exact absurd hjpos (not_lt.mpr (h4 j hlt))
  · subst heq; exact le_refl _
  · have hp := List.pairwise_iff_get.mp hs ⟨i, h1⟩ ⟨j, hj⟩ hgt
    rw [List.getD_eq_get xs Inter.dflt h1, List.getD_eq_get xs Inter.dflt hj]
    exact hp

/-- Sample list for the C6 witness: a negative-time entry followed by two
positive ones, the first positive entry on a shadowing shape. -/
def c6List : List (Inter ℚ) :=
  [⟨-1, ObjView.dflt, 0, 0⟩,
   ⟨2, { ObjView.dflt with oid := 7, castsShadow := true }, 0, 0⟩,
   ⟨3, { ObjView.dflt with oid := 8, castsShadow := false }, 0, 0⟩]

/-- Witness for C6: on the concrete sorted list, the characterization holds
for the actual result of hit (index 1, shadow flag true). -/
theorem c6_hit_first_positive_witness :
    1 < c6List.length
    ∧ 0 < (c6List.getD 1 Inter.dflt).time
    ∧ true = (c6List.getD 1 Inter.dflt).object.castsShadow
    ∧ (∀ j, j < 1 → (c6List.getD j Inter.dflt).time ≤ 0)
    ∧ ∀ j, j < c6List.length → 0 < (c6List.getD j Inter.dflt).time →
        (c6List.getD 1 Inter.dflt).time ≤ (c6List.getD j Inter.dflt).time :=
  (c6_hit_first_positive c6List (by decide)).2 1 true (by rfl)

/-- Modelled from the spec: the Computations record built by
World::prepare_computations.  The version of scene/computations.rs with the
fields `under_point`, `n1`, `n2` is not under src (the file present is an
older revision without them); the field list is reconstructed from the
constructor call in src/src/scene/world.rs lines 134-146 and spec section 3. -/
structure Computations (K : Type) where
  time : K
  object : ObjView K
  point : Tuple K
  over_point : Tuple K
  under_point : Tuple K
  n1 : K
  n2 : K
  eyev : Tuple K
  normalv : Tuple K
  reflectv : Tuple K
  inside : Bool

/-- Loop of World::contains_object (src/src/scene/world.rs lines 149-160):
index of the first container pointer-equal to the given object. -/
def contains_object_go {K : Type} (oid : ℕ) : ℕ → List (ObjView K) → Option ℕ
  | _, [] => none
  | i, o :: rest => if o.oid = oid then some i else contains_object_go oid (i + 1) rest

/-- World::contains_object. -/
def contains_object {K : Type} (x : Inter K) (containers : List (ObjView K)) :
    Option ℕ :=
  contains_object_go x.object.oid 0 containers

/-- One containment-stack update of the prepare_computations loop: if the
intersection's object is already in the containers list remove it at its
found index (the ray is exiting), otherwise push it (the ray is entering). -/
def containers_update {K : Type} (containers : List (ObjView K)) (x : Inter K) :
    List (ObjView K) :=
  match contains_object x containers with
  | some i => containers.eraseIdx i
  | none => containers ++ [x.object]

/-- Refractive index of the last element of the containers list, or vacuum
1.0 when the list is empty (the two branches at the hit index). -/
def last_refractive {K : Type} [LinearOrderedField K] (containers : List (ObjView K)) : K :=
  match containers.getLast? with
  | none => 1
  | some o => o.material.refractive_index

/-- The n1/n2 loop of World::prepare_computations (src/src/scene/world.rs
lines 99-132): replay the intersections with position counter `i`; at the
hit index read n1 from the stack before the update and n2 after it, then
break. -/
def n1n2_go {K : Type} [LinearOrderedField K] (hit_index : ℕ) :
    ℕ → List (ObjView K) → K × K → List (Inter K) → K × K
  | _, _, acc, [] => acc
  | i, containers, acc, x :: rest =>
    let n1 := if i = hit_index then last_refractive containers else acc.1
    let containers2 := containers_update containers x
    if i = hit_index then (n1, last_refractive containers2)
    else n1n2_go hit_index (i + 1) containers2 (n1, acc.2) rest

/-- The n1/n2 computation starting from an empty containers list and the
initial `n1 = 0.0`, `n2 = 0.0` of the source. -/
def n1n2 {K : Type} [LinearOrderedField K] (hit_index : ℕ) (xs : List (Inter K)) : K × K :=
  n1n2_go hit_index 0 [] (0, 0) xs

/-- Embedding of World::prepare_computations (src/src/scene/world.rs lines
70-147). -/
def prepare_computations {K : Type} [LinearOrderedField K] (hit_index : ℕ)
    (ray : Ray K) (intersections : List (Inter K)) : Computations K :=
  let intersection := intersections.getD hit_index Inter.dflt
  let time := intersection.time
  let object := intersection.object
  let point := ray.position time
  let eyev := ray.direction.neg
  let normalv0 := object.normal_at point (intersection.u, intersection.v)
  let normalv := if Tuple.dot normalv0 eyev < 0 then normalv0.neg else normalv0
  let reflectv := Tuple.reflect ray.direction normalv
  let over_point := point.add (normalv.smul EPSILON)
  let under_point := point.sub (normalv.smul EPSILON)
  let ns := n1n2 hit_index intersections
  { time := time
    object := object
    point := point
    over_point := over_point
    under_point := under_point
    n1 := ns.1
    n2 := ns.2
    eyev := eyev
    normalv := normalv
    reflectv := reflectv
    inside := decide (Tuple.dot normalv0 eyev < 0) }

/-- Containment stack described by the spec: fold the stack update over the
first `k` intersections of the time-ordered list, starting empty. -/
def containers_spec {K : Type} (xs : List (Inter K)) (k : ℕ) : List (ObjView K) :=
  (xs.take k).foldl containers_update []

lemma n1n2_go_spec {K : Type} [LinearOrderedField K] (xs : List (Inter K)) :
    ∀ (i0 hit_index : ℕ) (cs : List (ObjView K)) (acc : K × K),
      i0 ≤ hit_index → hit_index < i0 + xs.length →
      n1n2_go hit_index i0 cs acc xs =
        (last_refractive ((xs.take (hit_index - i0)).foldl containers_update cs),
         last_refractive ((xs.take (hit_index - i0 + 1)).foldl containers_update cs)) := by
  induction xs with
  | nil =>
    intro i0 hit_index cs acc h1 h2
    simp at h2
    omega
  | cons x rest ih =>
    intro i0 hit_index cs acc h1 h2
    by_cases h : i0 = hit_index
    · subst h
      simp only [n1n2_go, if_pos rfl]
      simp [Nat.sub_self, List.take_succ_cons]
    · have hlt : i0 < hit_index := lt_of_le_of_ne h1 h
      simp only [n1n2_go, if_neg h]
      rw [ih (i0 + 1) hit_index (containers_update cs x) _ (by omega) (by simp at h2 ⊢; omega)]
      have hk : hit_index - i0 = (hit_index - (i0 + 1)) + 1 := by omega
      rw [hk]
      simp [List.take_succ_cons]

/-- The three concentric glass spheres of the spec example (refractive
indices 1.5, 2.0, 2.5), as trait views with distinct identities. -/
def glassSphere (oid : ℕ) (ri : ℚ) : ObjView ℚ :=
  { ObjView.dflt with oid := oid, material := ⟨0, 1, ri⟩ }

/-- The six time-ordered intersections of a ray from (0,0,-4) in direction
(0,0,1) with the three concentric glass spheres: enter outer at 2, enter A
at 2.75, enter B at 3.25, exit A at 4.75, exit B at 5.25, exit outer at 6. -/
def glassXs : List (Inter ℚ) :=
  [⟨2, glassSphere 1 (3/2), 0, 0⟩,
   ⟨11/4, glassSphere 2 2, 0, 0⟩,
   ⟨13/4, glassSphere 3 (5/2), 0, 0⟩,
   ⟨19/4, glassSphere 2 2, 0, 0⟩,
   ⟨21/4, glassSphere 3 (5/2), 0, 0⟩,
   ⟨6, glassSphere 1 (3/2), 0, 0⟩]

/-- The piercing ray of the spec example. -/
def glassRay : Ray ℚ := ⟨Tuple.point 0 0 (-4), Tuple.vector 0 0 1⟩

/-- C2: prepare_computations derives n1 as the refractive index of the top
of the containment stack (push on first encounter, remove on re-encounter,
starting empty) obtained by replaying the intersections before the hit index
(vacuum 1.0 when empty) and n2 as the same just after processing the hit;
in particular the three-concentric-glass-spheres example yields exactly the
six pairs (1,1.5),(1.5,2),(2,2.5),(2.5,2.5),(2.5,1.5),(1.5,1). -/
theorem c2_refractive_index_stack {K : Type} [LinearOrderedField K] :
    (∀ (ray : Ray K) (xs : List (Inter K)) (hit_index : ℕ),
      hit_index < xs.length →
      ((prepare_computations hit_index ray xs).n1,
       (prepare_computations hit_index ray xs).n2) =
        (last_refractive (containers_spec xs hit_index),
         last_refractive (containers_spec xs (hit_index + 1))))
    ∧ (List.range 6).map
        (fun i => ((prepare_computations i glassRay glassXs).n1,
                   (prepare_computations i glassRay glassXs).n2)) =
        [(1, 3/2), (3/2, 2), (2, 5/2), (5/2, 5/2), (5/2, 3/2), (3/2, 1)] := by
  constructor
  · intro ray xs hit_index h
    have := n1n2_go_spec xs 0 hit_index [] (0, 0) (Nat.zero_le _) (by omega)
    simp only [Nat.sub_zero] at this
    simp only [prepare_computations, n1n2, this, containers_spec]
  · rfl

/-- Witness for C2: the general stack characterization applied to the hit at
index 3 of the concrete glass-spheres list. -/
theorem c2_refractive_index_stack_witness :
    ((prepare_computations 3 glassRay glassXs).n1,
     (prepare_computations 3 glassRay glassXs).n2) =
      (last_refractive (containers_spec glassXs 3),
       last_refractive (containers_spec glassXs 4)) :=
  (c2_refractive_index_stack (K := ℚ)).1 glassRay glassXs 3 (by decide)

/-- Embedding of World::schlick (src/src/scene/world.rs lines 279-302).
`cosF` models `f64::cos`; note that the source computes
`cos_t = (1.0 - sin2_t).cos()`, i.e. it applies the cosine function to
`1 - sin2_t`. -/
def schlick {K : Type} [LinearOrderedField K] (cosF : K → K) (comps : Computations K) : K :=
  let cos0 := Tuple.dot comps.eyev comps.normalv
  if comps.n2 < comps.n1 then
    let n := comps.n1 / comps.n2
    let sin2_t := (n * n) * (1 - cos0 * cos0)
    if 1 < sin2_t then 1
    else
      let cos_t := cosF (1 - sin2_t)
      let r0 := ((comps.n1 - comps.n2) / (comps.n1 + comps.n2)) ^ 2
      r0 + (1 - r0) * (1 - cos_t) ^ 5
  else
    let r0 := ((comps.n1 - comps.n2) / (comps.n1 + comps.n2)) ^ 2
    r0 + (1 - r0) * (1 - cos0) ^ 5

/-- Schlick reflectance written from the specification text: identical to the
source except that, when n1 > n2 and total internal reflection does not
apply, the transmitted-angle cosine is `sqrt(1 - sin2_t)` (`sqrtF` models
`f64::sqrt`). -/
def schlick_spec {K : Type} [LinearOrderedField K] (sqrtF : K → K) (comps : Computations K) : K :=
  let cos0 := Tuple.dot comps.eyev comps.normalv
  if comps.n2 < comps.n1 then
    let n := comps.n1 / comps.n2
    let sin2_t := (n * n) * (1 - cos0 * cos0)
    if 1 < sin2_t then 1
    else
      let cos_t := sqrtF (1 - sin2_t)
      let r0 := ((comps.n1 - comps.n2) / (comps.n1 + comps.n2)) ^ 2
      r0 + (1 - r0) * (1 - cos_t) ^ 5
  else
    let r0 := ((comps.n1 - comps.n2) / (comps.n1 + comps.n2)) ^ 2
    r0 + (1 - r0) * (1 - cos0) ^ 5

/-- Shading context of a perpendicular exit from glass into vacuum:
n1 = 1.5, n2 = 1.0, eye and normal aligned so that cos of the incidence
angle is exactly 1 (the fields not read by schlick are filled with
defaults). -/
noncomputable def c3Comps : Computations ℝ :=
  { time := 0
    object := ObjView.dflt
    point := Tuple.point 0 0 0
    over_point := Tuple.point 0 0 0
    under_point := Tuple.point 0 0 0
    n1 := 3 / 2
    n2 := 1
    eyev := Tuple.vector 0 1 0
    normalv := Tuple.vector 0 1 0
    reflectv := Tuple.vector 0 1 0
    inside := true }

/-- C3 counterexample: at a perpendicular glass-to-vacuum exit the source
schlick (which calls `.cos()` where the claimed formula takes a square
root) returns `1/25 + (24/25)(1 - cos 1)^5`, while the claimed formula
gives exactly `r0 = 1/25`; since `cos 1 < 1` the two differ.  This
contradicts the claim that the non-TIR branch uses
`cos θt = sqrt(1 - sin²θt)`. -/
theorem c3_schlick_cos_bug :
    schlick Real.cos c3Comps = 1 / 25 + (24 / 25) * (1 - Real.cos 1) ^ 5
    ∧ schlick_spec Real.sqrt c3Comps = 1 / 25
    ∧ schlick Real.cos c3Comps ≠ schlick_spec Real.sqrt c3Comps := by
  have hdot : Tuple.dot c3Comps.eyev c3Comps.normalv = 1 := by
    simp [c3Comps, Tuple.dot, Tuple.vector]
  have harg : (1 : ℝ) - ((c3Comps.n1 / c3Comps.n2) * (c3Comps.n1 / c3Comps.n2))
      * (1 - Tuple.dot c3Comps.eyev c3Comps.normalv
        * Tuple.dot c3Comps.eyev c3Comps.normalv) = 1 := by
    rw [hdot]; norm_num
  have hcode : schlick Real.cos c3Comps = 1 / 25 + (24 / 25) * (1 - Real.cos 1) ^ 5 := by
    rw [schlick]
    rw [if_pos (by norm_num [c3Comps])]
    rw [if_neg (by rw [hdot]; norm_num [c3Comps])]
    rw [harg]
    norm_num [c3Comps]
  have hspec : schlick_spec Real.sqrt c3Comps = 1 / 25 := by
    rw [schlick_spec]
    rw [if_pos (by norm_num [c3Comps])]
    rw [if_neg (by rw [hdot]; norm_num [c3Comps])]
    rw [harg]
    rw [Real.sqrt_one]
    norm_num [c3Comps]
  refine ⟨hcode, hspec, ?_⟩
  rw [hcode, hspec]
  have h1 : Real.cos 1 ≤ 2 / 3 := Real.cos_one_le
  have h2 : (0 : ℝ) < (1 - Real.cos 1) ^ 5 := pow_pos (by linarith) 5
  have h3 : (0 : ℝ) < (24 / 25) * (1 - Real.cos 1) ^ 5 :=
    mul_pos (by norm_num) h2
  intro heq
  linarith

/-- Embedding of Cone::check_cap (src/src/geometry/cone.rs lines 62-70): the
source compares the squared distance from the axis against `y` itself. -/
def check_cap {K : Type} [LinearOrderedField K] (r : Ray K) (y t : K) : Bool :=
  let x := r.origin.x + t * r.direction.x
  let z := r.origin.z + t * r.direction.z
  decide (x * x + z * z ≤ y)

/-- Embedding of Cone::intersect_caps (src/src/geometry/cone.rs lines
72-95), returning the times appended to the accumulated list. -/
def intersect_caps {K : Type} [LinearOrderedField K] (minimum maximum : K)
    (closed : Bool) (r : Ray K) (xs : List K) : List K :=
  if !closed || decide (|r.direction.y| < EPSILON) then xs
  else
    let t0 := (minimum - r.origin.y) / r.direction.y
    let xs1 := if check_cap r |minimum| t0 then xs ++ [t0] else xs
    let t1 := (maximum - r.origin.y) / r.direction.y
    if check_cap r |maximum| t1 then xs1 ++ [t1] else xs1

/-- Cap acceptance written from the claim: the hit point of parameter `t`
satisfies x² + z² ≤ y² at the cap level `y`. -/
def cap_accept_spec {K : Type} [LinearOrderedField K] (r : Ray K) (y t : K) : Prop :=
  let x := r.origin.x + t * r.direction.x
  let z := r.origin.z + t * r.direction.z
  x * x + z * z ≤ y * y

/-- Ray aimed straight up through the lower cap plane of the test cone: it
meets y = -4 at parameter 6, at the point (3, -4, 0). -/
def c7Ray : Ray ℚ := ⟨Tuple.point 3 (-10) 0, Tuple.vector 0 1 0⟩

/-- C7 counterexample: for the closed cone with minimum -4 and maximum 4 the
lower-cap candidate t = 6 hits (3, -4, 0), which is inside the cap of
radius |y| = 4 (9 ≤ 16, the claimed acceptance test), yet intersect_caps
rejects it (and the upper-cap candidate) and returns no cap hit, because
check_cap compares the squared distance 9 against |y| = 4 instead of
y² = 16. -/
theorem c7_cone_cap_radius_bug :
    cap_accept_spec c7Ray (-4) 6
    ∧ intersect_caps (-4 : ℚ) 4 true c7Ray [] = [] := by
  constructor
  · norm_num [cap_accept_spec, c7Ray, Tuple.point, Tuple.vector]
  · have h0 : check_cap c7Ray |(-4 : ℚ)| (((-4 : ℚ) - c7Ray.origin.y) / c7Ray.direction.y) = false := by
      norm_num [check_cap, c7Ray, Tuple.point, Tuple.vector]
    have h1 : check_cap c7Ray |(4 : ℚ)| (((4 : ℚ) - c7Ray.origin.y) / c7Ray.direction.y) = false := by
      norm_num [check_cap, c7Ray, Tuple.point, Tuple.vector]
    rw [intersect_caps]
    rw [if_neg (by norm_num [c7Ray, Tuple.vector, EPSILON])]
    simp only [h0, h1]
    simp

/-- Ascending-time ordering on intersections (Ord for Intersection is
total_cmp on the time). -/
def timeLE {K : Type} [LinearOrderedField K] (a b : Inter K) : Prop :=
  a.time ≤ b.time

instance {K : Type} [LinearOrderedField K] : DecidableRel (timeLE (K := K)) :=
  fun a b => inferInstanceAs (Decidable (a.time ≤ b.time))

instance {K : Type} [LinearOrderedField K] : IsTotal (Inter K) timeLE :=
  ⟨fun a b => le_total a.time b.time⟩

instance {K : Type} [LinearOrderedField K] : IsTrans (Inter K) timeLE :=
  ⟨fun _ _ _ h1 h2 => le_trans h1 h2⟩

/-- Embedding of `Vec::sort` on intersections (a stable sort in ascending
time order). -/
def sort_by_time {K : Type} [LinearOrderedField K] (xs : List (Inter K)) : List (Inter K) :=
  List.insertionSort timeLE xs

/-- Group::find_bounds (src/src/geometry/group.rs lines 65-76): union of
every child's parent-space bounds, starting from the empty box; this is the
value of the lazily cached Group bounds. -/
def group_find_bounds {K : Type} [LinearOrderedField K] (cs : List (ChildV K)) : BBox K :=
  cs.foldl (fun acc c => acc.union c.psb) BBox.empty

/-- Embedding of Group::local_intersect (src/src/geometry/group.rs lines
126-147): cull on a missed bounding box, otherwise concatenate the children
intersections in order and sort only when there is more than one child. -/
def group_local_intersect {K : Type} [LinearOrderedField K] (cs : List (ChildV K))
    (ray : Ray K) : List (Inter K) :=
  if (group_find_bounds cs).intersects ray then
    let result := (cs.map (fun c => c.intersect ray)).join
    if 1 < cs.length then sort_by_time result else result
  else []

/-- CSG::find_bounds (src/src/geometry/csg.rs lines 83-85): empty box plus
both children's parent-space bounds; the value of the cached CSG bounds. -/
def csg_find_bounds {K : Type} [LinearOrderedField K] (c : CSG K) : BBox K :=
  (BBox.empty.union c.left.psb).union c.right.psb

/-- Embedding of CSG::local_intersect (src/src/geometry/csg.rs lines
145-158): cull on a missed union box, otherwise gather both children,
sort by time and filter. -/
def csg_local_intersect {K : Type} [LinearOrderedField K] (c : CSG K) (ray : Ray K) :
    List (Inter K) :=
  if (csg_find_bounds c).intersects ray then
    filter_intersections c.operation c.left.includes
      (sort_by_time (c.left.intersect ray ++ c.right.intersect ray))
  else []

/-- The Group bounds depend only on the children's parent-space boxes. -/
lemma group_find_bounds_map_psb {K : Type} [LinearOrderedField K]
    (cs cs2 : List (ChildV K)) (h : cs2.map ChildV.psb = cs.map ChildV.psb) :
    group_find_bounds cs2 = group_find_bounds cs := by
  unfold group_find_bounds
  rw [← List.foldl_map (f := ChildV.psb) (g := BBox.union),
      ← List.foldl_map (f := ChildV.psb) (g := BBox.union), h]

/-- C5: a composite whose cached bounding box misses the ray returns the
empty list without consulting any child (the result is the same for every
children list with the same parent-space boxes); when the box is hit, a
Group returns the in-order concatenation of the children's intersections,
sorted by time exactly when there is more than one child, and a CSG filters
the time-sorted gather of both children. -/
theorem c5_composite_bbox_cull {K : Type} [LinearOrderedField K] :
    (∀ (cs : List (ChildV K)) (ray : Ray K),
      ((group_find_bounds cs).intersects ray = false →
        group_local_intersect cs ray = []
        ∧ ∀ cs2 : List (ChildV K), cs2.map ChildV.psb = cs.map ChildV.psb →
            group_local_intersect cs2 ray = [])
      ∧ ((group_find_bounds cs).intersects ray = true →
        ((group_local_intersect cs ray).Perm
            ((cs.map (fun c => c.intersect ray)).join)
          ∧ (1 < cs.length →
              List.Sorted timeLE (group_local_intersect cs ray))
          ∧ (cs.length ≤ 1 →
              group_local_intersect cs ray
                = (cs.map (fun c => c.intersect ray)).join))))
    ∧ (∀ (c : CSG K) (ray : Ray K),
      ((csg_find_bounds c).intersects ray = false →
        csg_local_intersect c ray = []
        ∧ ∀ c2 : CSG K, c2.left.psb = c.left.psb → c2.right.psb = c.right.psb →
            csg_local_intersect c2 ray = [])
      ∧ ((csg_find_bounds c).intersects ray = true →
        csg_local_intersect c ray
          = filter_intersections c.operation c.left.includes
              (sort_by_time (c.left.intersect ray ++ c.right.intersect ray))
        ∧ (sort_by_time (c.left.intersect ray ++ c.right.intersect ray)).Perm
            (c.left.intersect ray ++ c.right.intersect ray)
        ∧ List.Sorted timeLE
            (sort_by_time (c.left.intersect ray ++ c.right.intersect ray)))) := by
  constructor
  · intro cs ray
    constructor
    · intro hmiss
      constructor
      · unfold group_local_intersect
        rw [if_neg (by rw [hmiss]; simp)]
      · intro cs2 h2
        unfold group_local_intersect
        rw [if_neg (by rw [group_find_bounds_map_psb cs cs2 h2, hmiss]; simp)]
    · intro hhit
      unfold group_local_intersect
      rw [if_pos hhit]
      refine ⟨?_, ?_, ?_⟩
      · by_cases hlen : 1 < cs.length
        · rw [if_pos hlen]
          exact List.perm_insertionSort timeLE _
        · rw [if_neg hlen]
      · intro hlen
        rw [if_pos hlen]
        exact List.sorted_insertionSort timeLE _
      · intro hle
        rw [if_neg (by omega)]
  · intro c ray
    constructor
    · intro hmiss
      constructor
      · unfold csg_local_intersect
        rw [if_neg (by rw [hmiss]; simp)]
      · intro c2 hl hr
        unfold csg_local_intersect
        have hb : csg_find_bounds c2 = csg_find_bounds c := by
          unfold csg_find_bounds
          rw [hl, hr]
        rw [if_neg (by rw [hb, hmiss]; simp)]
    · intro hhit
      unfold csg_local_intersect
      rw [if_pos hhit]
      exact ⟨rfl, List.perm_insertionSort timeLE _, List.sorted_insertionSort timeLE _⟩

/-- A child view over ℚ whose parent-space box is the unit cube translated
nowhere, always reporting one intersection at the given time. -/
def c5Child (oid : ℕ) (t : ℚ) : ChildV ℚ :=
  { psb := BBox.ofFin (-1) (-1) (-1) 1 1 1
    intersect := fun _ => [⟨t, { ObjView.dflt with oid := oid }, 0, 0⟩]
    includes := fun n => n = oid
    casts_shadow := true }

/-- A ray over ℚ that passes beside the unit cube (origin (0,2,-5), aimed
along +z): the slab test on the y axis rejects it. -/
def c5MissRay : Ray ℚ := ⟨Tuple.point 0 2 (-5), Tuple.vector 0 0 1⟩

/-- A ray over ℚ through the unit cube (origin (0,0,-5), aimed along +z). -/
def c5HitRay : Ray ℚ := ⟨Tuple.point 0 0 (-5), Tuple.vector 0 0 1⟩

lemma c5_group_bounds_concrete :
    group_find_bounds [c5Child 1 4, c5Child 2 2] = BBox.ofFin (-1) (-1) (-1) 1 1 1 := by
  unfold group_find_bounds c5Child
  simp only [List.foldl_cons, List.foldl_nil]
  unfold BBox.union BBox.add_point BBox.empty BBox.ofFin
  simp [XF.fmin, XF.fmax]

lemma c5_miss_concrete :
    (group_find_bounds [c5Child 1 4, c5Child 2 2]).intersects c5MissRay = false := by
  rw [c5_group_bounds_concrete]
  unfold BBox.intersects BBox.ofFin c5MissRay
  unfold BBox.check_axis
  norm_num [Tuple.point, Tuple.vector, EPSILON, XF.subFin, XF.divFin, XF.mulPinf,
    XF.lt, XF.fmax, XF.fmin]

lemma c5_hit_concrete :
    (group_find_bounds [c5Child 1 4, c5Child 2 2]).intersects c5HitRay = true := by
  rw [c5_group_bounds_concrete]
  unfold BBox.intersects BBox.ofFin c5HitRay
  unfold BBox.check_axis
  norm_num [Tuple.point, Tuple.vector, EPSILON, XF.subFin, XF.divFin, XF.mulPinf,
    XF.lt, XF.fmax, XF.fmin]

/-- Witness for C5: a two-child group over ℚ; a ray that misses the cached
box yields the empty list (for this and any same-bounds children list), and
a ray that hits it yields a permutation of the concatenated child hits,
sorted by time. -/
theorem c5_composite_bbox_cull_witness :
    group_local_intersect [c5Child 1 4, c5Child 2 2] c5MissRay = []
    ∧ (group_local_intersect [c5Child 1 4, c5Child 2 2] c5HitRay).Perm
        (([c5Child 1 4, c5Child 2 2].map (fun c => c.intersect c5HitRay)).join)
    ∧ List.Sorted timeLE (group_local_intersect [c5Child 1 4, c5Child 2 2] c5HitRay) :=
  ⟨(((c5_composite_bbox_cull (K := ℚ)).1 [c5Child 1 4, c5Child 2 2] c5MissRay).1
      c5_miss_concrete).1,
   (((c5_composite_bbox_cull (K := ℚ)).1 [c5Child 1 4, c5Child 2 2] c5HitRay).2
      c5_hit_concrete).1,
   (((c5_composite_bbox_cull (K := ℚ)).1 [c5Child 1 4, c5Child 2 2] c5HitRay).2
      c5_hit_concrete).2.1 (by decide)⟩

/-- IEEE addition on extended values (used only by the spec-modelled box
split): opposite infinities give NaN. -/
def XF.add {K : Type} [LinearOrderedField K] : XF K → XF K → XF K
  | .nan, _ => .nan
  | _, .nan => .nan
  | .pinf, .ninf => .nan
  | .ninf, .pinf => .nan
  | .pinf, _ => .pinf
  | _, .pinf => .pinf
  | .ninf, _ => .ninf
  | _, .ninf => .ninf
  | .fin a, .fin b => .fin (a + b)

/-- IEEE subtraction on extended values: equal infinities give NaN. -/
def XF.sub {K : Type} [LinearOrderedField K] : XF K → XF K → XF K
  | .nan, _ => .nan
  | _, .nan => .nan
  | .pinf, .pinf => .nan
  | .ninf, .ninf => .nan
  | .pinf, _ => .pinf
  | .ninf, _ => .ninf
  | _, .pinf => .ninf
  | _, .ninf => .pinf
  | .fin a, .fin b => .fin (a - b)

/-- Halving an extended value. -/
def XF.half {K : Type} [LinearOrderedField K] : XF K → XF K
  | .nan => .nan
  | .pinf => .pinf
  | .ninf => .ninf
  | .fin a => .fin (a / 2)

/-- Modelled from the spec: BoundingBox::split_bounds is called by
Group::partition_children but its definition is not under src; per the spec
it splits the box into two half-sized boxes along its longest axis (the
books split: pick the greatest of the three extents, ties preferring x then
y, cut that axis at its midpoint, and share the cut plane between the two
halves). -/
def split_bounds {K : Type} [LinearOrderedField K] (b : BBox K) : BBox K × BBox K :=
  let dx := b.max.x.sub b.min.x
  let dy := b.max.y.sub b.min.y
  let dz := b.max.z.sub b.min.z
  if XF.le dy dx && XF.le dz dx then
    let mid := b.min.x.add dx.half
    (⟨b.min, ⟨mid, b.max.y, b.max.z⟩⟩, ⟨⟨mid, b.min.y, b.min.z⟩, b.max⟩)
  else if XF.le dz dy then
    let mid := b.min.y.add dy.half
    (⟨b.min, ⟨b.max.x, mid, b.max.z⟩⟩, ⟨⟨b.min.x, mid, b.min.z⟩, b.max⟩)
  else
    let mid := b.min.z.add dz.half
    (⟨b.min, ⟨b.max.x, b.max.y, mid⟩⟩, ⟨⟨b.min.x, b.min.y, mid⟩, b.max⟩)

/-- Shape tree for the divide algorithm: a primitive is observed through its
parent-space bounds (divide is a no-op on it); a group carries the abstract
box transform of its own matrix (`Box.transform`) and its ordered
children. -/
inductive GShape (K : Type) where
  | prim (psb : BBox K) : GShape K
  | grp (tf : BBox K → BBox K) (children : List (GShape K)) : GShape K

mutual

/-- Shape::parent_space_bounds_of as seen by an enclosing group: a primitive
reports its stored parent-space box; a group applies its transform to its
own bounds (the union of the children boxes, as Group::find_bounds). -/
def GShape.psb {K : Type} [LinearOrderedField K] : GShape K → BBox K
  | .prim b => b
  | .grp tf cs => tf ((GShape.psbList cs).foldl BBox.union BBox.empty)

/-- Parent-space boxes of a list of children, in order. -/
def GShape.psbList {K : Type} [LinearOrderedField K] : List (GShape K) → List (BBox K)
  | [] => []
  | c :: rest => c.psb :: GShape.psbList rest

end

/-- Group::find_bounds for the divide model: union of every child's
parent-space bounds starting from the empty box (the value of the cached
group bounds). -/
def GShape.groupBounds {K : Type} [LinearOrderedField K] (cs : List (GShape K)) : BBox K :=
  (GShape.psbList cs).foldl BBox.union BBox.empty

/-- Loop of Group::partition_children (src/src/geometry/group.rs lines
88-98): classify each child into left half, right half (left tested first)
or straddling, keeping the original order inside each bucket. -/
def partition_go {K : Type} [LinearOrderedField K] (lb rb : BBox K) :
    List (GShape K) → List (GShape K) × List (GShape K) × List (GShape K)
  | [] => ([], [], [])
  | c :: rest =>
    let p := partition_go lb rb rest
    if lb.contains_box c.psb then (c :: p.1, p.2.1, p.2.2)
    else if rb.contains_box c.psb then (p.1, c :: p.2.1, p.2.2)
    else (p.1, p.2.1, c :: p.2.2)

/-- Embedding of Group::partition_children (src/src/geometry/group.rs lines
78-104): split the group's own bounds, classify the children, return the
(left, right) lists; the third component is what remains as the direct
children. -/
def partition_children {K : Type} [LinearOrderedField K] (cs : List (GShape K)) :
    (List (GShape K) × List (GShape K)) × List (GShape K) :=
  let pb := split_bounds (GShape.groupBounds cs)
  let p := partition_go pb.1 pb.2 cs
  ((p.1, p.2.1), p.2.2)

/-- Parent-space box transform of a subgroup made by Group::make_subgroup:
Group::default has the identity matrix, so its `parent_space_bounds_of` is
the eight-corner rebuild of its bounds under the identity corner map. -/
def make_subgroup_tf {K : Type} [LinearOrderedField K] : BBox K → BBox K :=
  BBox.transformWith id

/-- Embedding of Group::divide (src/src/geometry/group.rs lines 189-209)
with an explicit recursion-depth fuel (the Rust recursion has no structural
termination argument; every claim below is about one unfolding).  When the
child count reaches the threshold, the children are partitioned: straddlers
stay in place and each non-empty half is wrapped in one brand-new subgroup
appended as a single child (left first, as make_subgroup is called); then
divide recurses into every remaining direct child; primitives no-op. -/
def divide {K : Type} [LinearOrderedField K] (threshold : ℕ) : ℕ → GShape K → GShape K
  | _, .prim b => .prim b
  | 0, .grp tf cs => .grp tf cs
  | fuel + 1, .grp tf cs =>
    let cs1 :=
      if threshold ≤ cs.length then
        let p := partition_children cs
        let withL := if p.1.1.isEmpty then p.2 else p.2 ++ [.grp make_subgroup_tf p.1.1]
        if p.1.2.isEmpty then withL else withL ++ [.grp make_subgroup_tf p.1.2]
      else cs
    .grp tf (cs1.map (divide threshold fuel))

/-- Membership of a child in the left half-box. -/
def in_left {K : Type} [LinearOrderedField K] (lb : BBox K) (c : GShape K) : Bool :=
  lb.contains_box c.psb

/-- Membership in the right half-box of a child not wholly in the left one
(the source tests left first). -/
def in_right {K : Type} [LinearOrderedField K] (lb rb : BBox K) (c : GShape K) : Bool :=
  !lb.contains_box c.psb && rb.contains_box c.psb

/-- A child wholly inside neither half: it straddles and stays in place. -/
def straddles {K : Type} [LinearOrderedField K] (lb rb : BBox K) (c : GShape K) : Bool :=
  !lb.contains_box c.psb && !rb.contains_box c.psb

lemma partition_go_filters {K : Type} [LinearOrderedField K] (lb rb : BBox K)
    (cs : List (GShape K)) :
    partition_go lb rb cs =
      (cs.filter (in_left lb), cs.filter (in_right lb rb), cs.filter (straddles lb rb)) := by
  induction cs with
  | nil => rfl
  | cons c rest ih =>
    simp only [partition_go, ih]
    by_cases h1 : lb.contains_box c.psb
    · simp [in_left, in_right, straddles, h1]
    · by_cases h2 : rb.contains_box c.psb
      · simp [in_left, in_right, straddles, h1, h2]
      · simp [in_left, in_right, straddles, h1, h2]

/-- Children list described by the claim for the at-threshold case: the
straddling children stay in place in their original order, then each
non-empty half contributes exactly one brand-new subgroup wrapping the
children whose parent-space bounds lie wholly inside that half of the split
group bounds (left tested first). -/
def spec_children {K : Type} [LinearOrderedField K] (cs : List (GShape K)) :
    List (GShape K) :=
  let lb := (split_bounds (GShape.groupBounds cs)).1
  let rb := (split_bounds (GShape.groupBounds cs)).2
  cs.filter (straddles lb rb)
    ++ (if (cs.filter (in_left lb)).isEmpty then []
        else [GShape.grp make_subgroup_tf (cs.filter (in_left lb))])
    ++ (if (cs.filter (in_right lb rb)).isEmpty then []
        else [GShape.grp make_subgroup_tf (cs.filter (in_right lb rb))])

/-- C4: one unfolding of Group::divide.  At or above the threshold the direct
children become `spec_children`: straddlers in place plus at most one new
subgroup per non-empty half of the split group bounds; below the threshold
the children are untouched; in both cases divide is then invoked on every
remaining direct child (with one unit of fuel consumed, modelling the
recursive call). -/
theorem c4_divide_partitions {K : Type} [LinearOrderedField K]
    (tf : BBox K → BBox K) (cs : List (GShape K)) (threshold fuel : ℕ) :
    (threshold ≤ cs.length →
      divide threshold (fuel + 1) (GShape.grp tf cs) =
        GShape.grp tf ((spec_children cs).map (divide threshold fuel)))
    ∧ (cs.length < threshold →
      divide threshold (fuel + 1) (GShape.grp tf cs) =
        GShape.grp tf (cs.map (divide threshold fuel))) := by
  constructor
  · intro h
    show GShape.grp tf _ = _
    rw [if_pos h]
    simp only [partition_children, partition_go_filters, spec_children]
    by_cases hL : (cs.filter (in_left (split_bounds (GShape.groupBounds cs)).1)).isEmpty
    · by_cases hR : (cs.filter (in_right (split_bounds (GShape.groupBounds cs)).1
          (split_bounds (GShape.groupBounds cs)).2)).isEmpty
      · simp [hL, hR]
      · simp [hL, hR]
    · by_cases hR : (cs.filter (in_right (split_bounds (GShape.groupBounds cs)).1
          (split_bounds (GShape.groupBounds cs)).2)).isEmpty
      · simp [hL, hR]
      · simp [hL, hR, List.append_assoc]
  · intro h
    show GShape.grp tf _ = _
    rw [if_neg (by omega)]

/-- Unit sphere bounds at the origin (straddles the split). -/
def c4s1 : GShape ℚ := .prim (BBox.ofFin (-1) (-1) (-1) 1 1 1)

/-- Sphere translated to (-2,0,0): wholly in the left half. -/
def c4s2 : GShape ℚ := .prim (BBox.ofFin (-3) (-1) (-1) (-1) 1 1)

/-- Sphere translated to (2,1,0): wholly in the right half. -/
def c4s3 : GShape ℚ := .prim (BBox.ofFin 1 0 (-1) 3 2 1)

/-- The three-children partition of the repo test: the group box spans x in
[-3,3], splits at x = 0; the left half receives exactly the second child,
the right half exactly the third, and the unit sphere straddles. -/
lemma c4_partition_concrete :
    partition_children [c4s1, c4s2, c4s3] = (([c4s2], [c4s3]), [c4s1]) := by
  have hb : GShape.groupBounds [c4s1, c4s2, c4s3] = BBox.ofFin (-3) (-1) (-1) 3 2 1 := by
    show (GShape.psbList [c4s1, c4s2, c4s3]).foldl BBox.union BBox.empty = _
    simp only [c4s1, c4s2, c4s3, GShape.psbList, GShape.psb, List.foldl]
    norm_num [BBox.union, BBox.add_point, BBox.empty, BBox.ofFin, XF.fmin, XF.fmax,
      min_def, max_def]
  have hs : split_bounds (BBox.ofFin (-3 : ℚ) (-1) (-1) 3 2 1) =
      (BBox.ofFin (-3) (-1) (-1) 0 2 1, BBox.ofFin 0 (-1) (-1) 3 2 1) := by
    rw [split_bounds]
    rw [if_pos (by norm_num [BBox.ofFin, XF.sub, XF.le])]
    norm_num [BBox.ofFin, XF.sub, XF.add, XF.half]
  rw [partition_children, hb, hs]
  simp only [c4s1, c4s2, c4s3, partition_go, GShape.psb]
  rw [if_neg (by norm_num [BBox.ofFin, BBox.contains_box, XF.le]),
    if_neg (by norm_num [BBox.ofFin, BBox.contains_box, XF.le])]
  rw [if_pos (by norm_num [BBox.ofFin, BBox.contains_box, XF.le])]
  rw [if_neg (by norm_num [BBox.ofFin, BBox.contains_box, XF.le])]
  rw [if_pos (by norm_num [BBox.ofFin, BBox.contains_box, XF.le])]

/-- Witness for C4: one unfolding of divide(1) on the three-children group
of the repo test. -/
theorem c4_divide_partitions_witness :
    divide 1 1 (GShape.grp make_subgroup_tf [c4s1, c4s2, c4s3]) =
      GShape.grp make_subgroup_tf
        ((spec_children [c4s1, c4s2, c4s3]).map (divide 1 0)) :=
  (c4_divide_partitions make_subgroup_tf [c4s1, c4s2, c4s3] 1 0).1 (by decide)

/-- Pixel stream of one render worker (src/src/lib.rs lines 92-113): starting
at (x, y), while y is above the canvas bottom emit (x, y), advance x by the
thread count, and on overflow wrap x modulo the width and move down one
row.  The loop has no structural termination measure in this generality, so
it carries an explicit fuel; `worker_pixels` supplies fuel that is always
sufficient. -/
def pixels_from (T w h : ℕ) : ℕ → ℕ → ℕ → List (ℕ × ℕ)
  | 0, _, _ => []
  | fuel + 1, x, y =>
    if y < h then
      (x, y) ::
        (if w ≤ x + T then pixels_from T w h fuel ((x + T) % w) (y + 1)
         else pixels_from T w h fuel (x + T) y)
    else []

/-- The pixels sent by worker `i` of `T` threads on a `w` by `h` canvas:
`x = i mod width`, `y = i div width` as in the worker closure. -/
def worker_pixels (T w h i : ℕ) : List (ℕ × ℕ) :=
  pixels_from T w h (w * h + 1) (i % w) (i / w)

/-- Arithmetic progression of linear pixel indices: from `idx`, step `T`,
while below `N`. -/
def stride_go (T N : ℕ) : ℕ → ℕ → List ℕ
  | 0, _ => []
  | fuel + 1, idx => if idx < N then idx :: stride_go T N fuel (idx + T) else []

lemma pixels_from_eq_stride (T w h : ℕ) (hT : 1 ≤ T) (hTw : T ≤ w) :
    ∀ (fuel x y : ℕ), x < w →
      pixels_from T w h fuel x y =
        (stride_go T (w * h) fuel (y * w + x)).map (fun n => (n % w, n / w)) := by
  intro fuel
  induction fuel with
  | zero => intro x y hx; rfl
  | succ fuel ih =>
    intro x y hx
    have hw : 0 < w := by omega
    rw [pixels_from, stride_go]
    by_cases hy : y < h
    · have hidx : y * w + x < w * h := by
        have h1 : y + 1 ≤ h := hy
        have h2 : (y + 1) * w ≤ h * w := Nat.mul_le_mul_right w h1
        have h3 : y * w + x < (y + 1) * w := by
          have : (y + 1) * w = y * w + w := by ring
          omega
        have : w * h = h * w := Nat.mul_comm w h
        omega
      rw [if_pos hy, if_pos hidx]
      have hmod : (y * w + x) % w = x := by
        rw [Nat.add_comm, Nat.add_mul_mod_self_right, Nat.mod_eq_of_lt hx]
      have hdiv : (y * w + x) / w = y := by
        rw [Nat.add_comm, Nat.add_mul_div_right x y hw, Nat.div_eq_of_lt hx]
        omega
      rw [List.map_cons, hmod, hdiv]
      congr 1
      by_cases hwrap : w ≤ x + T
      · rw [if_pos hwrap]
        have hlt2 : x + T < 2 * w := by omega
        have hmod2 : (x + T) % w = x + T - w := by
          rw [Nat.mod_eq_sub_mod hwrap, Nat.mod_eq_of_lt (by omega)]
        rw [ih ((x + T) % w) (y + 1) (Nat.mod_lt _ hw)]
        have harith : (y + 1) * w + (x + T) % w = y * w + x + T := by
          rw [hmod2]
          have : (y + 1) * w = y * w + w := by ring
          omega
        rw [harith]
      · rw [if_neg hwrap]
        rw [ih (x + T) y (by omega)]
        have harith : y * w + (x + T) = y * w + x + T := by omega
        rw [harith]
    · rw [if_neg hy, if_neg (by
        have h2 : h * w ≤ y * w := Nat.mul_le_mul_right w (by omega)
        have : w * h = h * w := Nat.mul_comm w h
        omega)]
      rfl

/-- Occurrence count of an element in a list (kept self-contained so that
concrete instances evaluate by kernel reduction). -/
def cnt {α : Type} [DecidableEq α] (a : α) : List α → ℕ
  | [] => 0
  | b :: rest => (if b = a then 1 else 0) + cnt a rest

lemma cnt_eq_zero_of_not_mem {α : Type} [DecidableEq α] (a : α) :
    ∀ l : List α, a ∉ l → cnt a l = 0 := by
  intro l
  induction l with
  | nil => intro _; rfl
  | cons b rest ih =>
    intro hmem
    rw [cnt]
    rw [if_neg (by intro hba; exact hmem (hba ▸ List.mem_cons_self b rest))]
    rw [ih (fun hr => hmem (List.mem_cons_of_mem b hr))]

lemma cnt_map_of_injective {α β : Type} [DecidableEq α] [DecidableEq β]
    (f : α → β) (hf : Function.Injective f) (x : α) :
    ∀ l : List α, cnt (f x) (l.map f) = cnt x l := by
  intro l
  induction l with
  | nil => rfl
  | cons b rest ih =>
    rw [List.map_cons, cnt, cnt, ih]
    by_cases hbx : b = x
    · rw [if_pos hbx, if_pos (by rw [hbx])]
    · rw [if_neg hbx, if_neg (fun hc => hbx (hf hc))]

lemma length_eq_sum_cnt {α : Type} [DecidableEq α] (G : Finset α) :
    ∀ l : List α, (∀ a ∈ l, a ∈ G) → l.length = G.sum fun a => cnt a l := by
  intro l
  induction l with
  | nil => intro _; simp [cnt]
  | cons b rest ih =>
    intro hmem
    have hrest : ∀ a ∈ rest, a ∈ G := fun a ha => hmem a (List.mem_cons_of_mem b ha)
    have hsplit : (G.sum fun a => cnt a (b :: rest))
        = (G.sum fun a => if b = a then 1 else 0) + G.sum fun a => cnt a rest := by
      rw [← Finset.sum_add_distrib]
      exact Finset.sum_congr rfl fun x _ => rfl
    rw [List.length_cons, hsplit, ← ih hrest]
    have hb : (G.sum fun a => if b = a then 1 else 0) = 1 := by
      rw [Finset.sum_ite_eq (G) b fun _ => 1]
      rw [if_pos (hmem b (List.mem_cons_self b rest))]
    omega

lemma stride_go_count (T N : ℕ) (hT : 1 ≤ T) :
    ∀ (fuel idx : ℕ), N ≤ idx + fuel → ∀ n,
      cnt n (stride_go T N fuel idx) =
        if idx ≤ n ∧ n < N ∧ T ∣ (n - idx) then 1 else 0 := by
  intro fuel
  induction fuel with
  | zero =>
    intro idx hfuel n
    rw [stride_go]
    rw [if_neg (by rintro ⟨h1, h2, _⟩; omega)]
    rfl
  | succ fuel ih =>
    intro idx hfuel n
    rw [stride_go]
    by_cases hidx : idx < N
    · rw [if_pos hidx, cnt]
      rw [ih (idx + T) (by omega) n]
      by_cases hn : n = idx
      · subst hn
        rw [if_pos rfl]
        rw [if_neg (c := n + T ≤ n ∧ n < N ∧ T ∣ n - (n + T))
          (by rintro ⟨h1, _, _⟩; omega)]
        rw [if_pos ⟨le_refl _, hidx, by simp⟩]
      · have hiff : (idx + T ≤ n ∧ n < N ∧ T ∣ (n - (idx + T)))
            ↔ (idx ≤ n ∧ n < N ∧ T ∣ (n - idx)) := by
          constructor
          · rintro ⟨h1, h2, h3⟩
            refine ⟨by omega, h2, ?_⟩
            have heq : n - idx = (n - (idx + T)) + T := by omega
            rw [heq]
            exact Nat.dvd_add h3 (dvd_refl T)
          · rintro ⟨h1, h2, h3⟩
            have hge : T ≤ n - idx := Nat.le_of_dvd (by omega) h3
            refine ⟨by omega, h2, ?_⟩
            have heq : n - (idx + T) = (n - idx) - T := by omega
            rw [heq]
            exact Nat.dvd_sub' h3 (dvd_refl T)
        rw [if_congr hiff rfl rfl, if_neg (fun hc => hn hc.symm)]
        omega
    · rw [if_neg hidx]
      rw [if_neg (by rintro ⟨_, h2, h3⟩; omega)]
      rfl

lemma stride_go_mem (T N : ℕ) :
    ∀ (fuel idx n : ℕ), n ∈ stride_go T N fuel idx → n < N := by
  intro fuel
  induction fuel with
  | zero => intro idx n hmem; exact absurd hmem (by rw [stride_go]; simp)
  | succ fuel ih =>
    intro idx n hmem
    rw [stride_go] at hmem
    by_cases hidx : idx < N
    · rw [if_pos hidx] at hmem
      rcases List.mem_cons.mp hmem with h | h
      · omega
      · exact ih _ _ h
    · rw [if_neg hidx] at hmem
      exact absurd hmem (by simp)

lemma worker_pixels_count (w h T : ℕ) (hT : 1 ≤ T) (hTw : T ≤ w)
    (i : ℕ) (hi : i < T) (a b : ℕ) (ha : a < w) (hb : b < h) :
    cnt (a, b) (worker_pixels T w h i) =
      if i ≤ b * w + a ∧ T ∣ (b * w + a - i) then 1 else 0 := by
  have hw : 0 < w := by omega
  unfold worker_pixels
  rw [pixels_from_eq_stride T w h hT hTw _ _ _ (Nat.mod_lt _ hw)]
  have hxy : (i / w) * w + i % w = i := by
    rw [Nat.mul_comm]
    exact Nat.div_add_mod i w
  rw [hxy]
  have hinj : Function.Injective (fun n : ℕ => (n % w, n / w)) := by
    intro m n hmn
    simp only [Prod.mk.injEq] at hmn
    obtain ⟨h1, h2⟩ := hmn
    calc m = w * (m / w) + m % w := (Nat.div_add_mod m w).symm
    _ = w * (n / w) + n % w := by rw [h1, h2]
    _ = n := Nat.div_add_mod n w
  have hmod : (b * w + a) % w = a := by
    rw [Nat.add_comm, Nat.add_mul_mod_self_right, Nat.mod_eq_of_lt ha]
  have hdiv : (b * w + a) / w = b := by
    rw [Nat.add_comm, Nat.add_mul_div_right a b hw, Nat.div_eq_of_lt ha]
    omega
  have hdec : ((a : ℕ), (b : ℕ)) = (fun n : ℕ => (n % w, n / w)) (b * w + a) := by
    simp [hmod, hdiv]
  rw [hdec, cnt_map_of_injective _ hinj]
  have hn : b * w + a < w * h := by
    have h2 : (b + 1) * w ≤ h * w := Nat.mul_le_mul_right w (by omega)
    have h3 : (b + 1) * w = b * w + w := by ring
    have h4 : w * h = h * w := Nat.mul_comm w h
    omega
  rw [stride_go_count T (w * h) hT (w * h + 1) i (by omega)]
  refine if_congr ?_ rfl rfl
  constructor
  · rintro ⟨h1, _, h3⟩
    exact ⟨h1, h3⟩
  · rintro ⟨h1, h3⟩
    exact ⟨h1, hn, h3⟩

lemma worker_pixels_mem (w h T : ℕ) (hT : 1 ≤ T) (hTw : T ≤ w) (i : ℕ)
    (p : ℕ × ℕ) (hp : p ∈ worker_pixels T w h i) : p.1 < w ∧ p.2 < h := by
  have hw : 0 < w := by omega
  unfold worker_pixels at hp
  rw [pixels_from_eq_stride T w h hT hTw _ _ _ (Nat.mod_lt _ hw)] at hp
  rcases List.mem_map.mp hp with ⟨n, hn, hpn⟩
  have hlt := stride_go_mem T (w * h) _ _ _ hn
  subst hpn
  constructor
  · exact Nat.mod_lt _ hw
  · show n / w < h
    rw [Nat.div_lt_iff_lt_mul hw]
    have : w * h = h * w := Nat.mul_comm w h
    omega

/-- C9 (amended): when the worker-thread count is at least 1 and at most the
image width, the static pixel assignment of the render workers covers every
pixel (a, b) with a < width, b < height exactly once across all workers
(pairwise disjoint, jointly exhaustive), and the total number of emitted
pixel messages is width * height. -/
theorem c9_striping_exact_cover (w h T : ℕ) (hT : 1 ≤ T) (hTw : T ≤ w) :
    (∀ a b, a < w → b < h →
      ((Finset.range T).sum fun i => cnt (a, b) (worker_pixels T w h i)) = 1)
    ∧ ((Finset.range T).sum fun i => (worker_pixels T w h i).length) = w * h := by
  have hw : 0 < w := by omega
  have hcover : ∀ a b, a < w → b < h →
      ((Finset.range T).sum fun i => cnt (a, b) (worker_pixels T w h i)) = 1 := by
    intro a b ha hb
    have hsum1 : ((Finset.range T).sum fun i => cnt (a, b) (worker_pixels T w h i))
        = (Finset.range T).sum fun i => if i = (b * w + a) % T then 1 else 0 := by
      apply Finset.sum_congr rfl
      intro i hi
      have hiT : i < T := Finset.mem_range.mp hi
      rw [worker_pixels_count w h T hT hTw i hiT a b ha hb]
      refine if_congr ?_ rfl rfl
      constructor
      · rintro ⟨h1, h2⟩
        rcases h2 with ⟨k, hk⟩
        have hnk : b * w + a = i + T * k := by omega
        rw [hnk, Nat.mul_comm T k, Nat.add_mul_mod_self_right, Nat.mod_eq_of_lt hiT]
      · intro hmod
        subst hmod
        refine ⟨Nat.mod_le _ _, ?_⟩
        have := Nat.div_add_mod (b * w + a) T
        exact ⟨(b * w + a) / T, by omega⟩
    rw [hsum1]
    rw [Finset.sum_ite_eq' (Finset.range T) ((b * w + a) % T) fun _ => 1]
    rw [if_pos (Finset.mem_range.mpr (Nat.mod_lt _ (by omega)))]
  refine ⟨hcover, ?_⟩
  have hlen : ∀ i, (worker_pixels T w h i).length =
      ((Finset.range w) ×ˢ (Finset.range h)).sum
        fun p => cnt p (worker_pixels T w h i) := by
    intro i
    apply length_eq_sum_cnt
    intro p hp
    obtain ⟨h1, h2⟩ := worker_pixels_mem w h T hT hTw i p hp
    exact Finset.mem_product.mpr ⟨Finset.mem_range.mpr h1, Finset.mem_range.mpr h2⟩
  have hswap : ((Finset.range T).sum fun i => (worker_pixels T w h i).length)
      = ((Finset.range w) ×ˢ (Finset.range h)).sum
          fun p => (Finset.range T).sum fun i => cnt p (worker_pixels T w h i) := by
    have h1 : ((Finset.range T).sum fun i => (worker_pixels T w h i).length)
        = (Finset.range T).sum fun i => ((Finset.range w) ×ˢ (Finset.range h)).sum
            fun p => cnt p (worker_pixels T w h i) :=
      Finset.sum_congr rfl fun i _ => hlen i
    rw [h1, Finset.sum_comm]
  rw [hswap]
  have hone : ((Finset.range w) ×ˢ (Finset.range h)).sum
      (fun p => (Finset.range T).sum fun i => cnt p (worker_pixels T w h i))
      = ((Finset.range w) ×ˢ (Finset.range h)).sum fun _ => 1 := by
    apply Finset.sum_congr rfl
    intro p hp
    rcases Finset.mem_product.mp hp with ⟨h1, h2⟩
    exact hcover p.1 p.2 (Finset.mem_range.mp h1) (Finset.mem_range.mp h2)
  rw [hone, Finset.sum_const, Finset.card_product, Finset.card_range, Finset.card_range]
  simp

/-- C9 counterexample: with the repo's 12 worker threads on a 5 by 2 canvas
the claimed disjoint exact cover fails: workers 3 and 5 both emit pixel
(0, 1), and in total 15 messages are produced instead of width*height = 10. -/
theorem c9_striping_counterexample :
    cnt ((0 : ℕ), (1 : ℕ)) (worker_pixels 12 5 2 3) = 1
    ∧ cnt ((0 : ℕ), (1 : ℕ)) (worker_pixels 12 5 2 5) = 1
    ∧ ((List.range 12).map fun i => (worker_pixels 12 5 2 i).length).sum = 15 := by
  refine ⟨?_, ?_, ?_⟩ <;> decide

/-- Witness for C9: the exact-once cover applied to the 12-thread render of
a 20 by 2 canvas at pixel (0, 1). -/
theorem c9_striping_exact_cover_witness :
    ((Finset.range 12).sum fun i => cnt ((0 : ℕ), (1 : ℕ)) (worker_pixels 12 20 2 i)) = 1 :=
  (c9_striping_exact_cover 20 2 12 (by decide) (by decide)).1 0 1 (by decide) (by decide)

/-- Embedding of src/src/scene/world.rs `World`: the top-level shapes are
observed through their `intersect` trait method, plus the point lights. -/
structure World (K : Type) where
  objects : List (Ray K → List (Inter K))
  lights : List (PLight K)

/-- World::intersect_world (src/src/scene/world.rs lines 55-68): append
every object's intersections in order, then sort by time. -/
def intersect_world {K : Type} [LinearOrderedField K] (w : World K) (ray : Ray K) :
    List (Inter K) :=
  sort_by_time ((w.objects.map fun obj => obj ray).flatten)

/-- World::is_shadowed (src/src/scene/world.rs lines 304-326). -/
def is_shadowed {K : Type} [LinearOrderedField K] (sqrtF : K → K) (w : World K)
    (point : Tuple K) (light : PLight K) : Bool :=
  let vec := light.position.sub point
  let distance := vec.magnitude sqrtF
  let direction := vec.normalize sqrtF
  let ray : Ray K := ⟨point, direction⟩
  let intersections := intersect_world w ray
  match hit intersections with
  | some p =>
      if p.2 then decide ((intersections.getD p.1 Inter.dflt).time < distance) else false
  | none => false

/-- Snell ratio term of World::refracted_color:
`sin2_t = (n1/n2)^2 (1 - cos_i^2)`. -/
def snell_sin2_t {K : Type} [LinearOrderedField K] (comps : Computations K) : K :=
  let nRat := comps.n1 / comps.n2
  let cos_i := Tuple.dot comps.eyev comps.normalv
  (nRat * nRat) * (1 - cos_i * cos_i)

/-- Refracted ray direction of World::refracted_color:
`normalv * (n_ratio * cos_i - cos_t) - eyev * n_ratio` with
`cos_t = sqrt(1 - sin2_t)`. -/
def refract_direction {K : Type} [LinearOrderedField K] (sqrtF : K → K)
    (comps : Computations K) : Tuple K :=
  let nRat := comps.n1 / comps.n2
  let cos_i := Tuple.dot comps.eyev comps.normalv
  let cos_t := sqrtF (1 - snell_sin2_t comps)
  (comps.normalv.smul (nRat * cos_i - cos_t)).sub (comps.eyev.smul nRat)

mutual

/-- World::color_at (src/src/scene/world.rs lines 198-212): intersect the
world, take the hit, shade it with the same remaining budget; black on a
miss. -/
def color_at {K : Type} [LinearOrderedField K] (sqrtF cosF : K → K) (w : World K) :
    ℕ → Ray K → Color K
  | remaining, ray =>
    let intersects := intersect_world w ray
    match hit intersects with
    | some p => shade_hit sqrtF cosF w remaining (prepare_computations p.1 ray intersects)
    | none => Color.black
  termination_by remaining _ => (remaining, 2)

/-- World::shade_hit (src/src/scene/world.rs lines 162-196): per light, add
the surface color plus reflected and refracted contributions, Schlick
blended when the material is both reflective and transparent. -/
def shade_hit {K : Type} [LinearOrderedField K] (sqrtF cosF : K → K) (w : World K) :
    ℕ → Computations K → Color K
  | remaining, comps =>
    w.lights.foldl
      (fun acc light =>
        let in_shadow := is_shadowed sqrtF w comps.over_point light
        let surface := comps.object.lighting comps.over_point light comps.eyev
          comps.normalv in_shadow
        let reflected := reflected_color sqrtF cosF w remaining comps
        let refracted := refracted_color sqrtF cosF w remaining comps
        if 0 < comps.object.material.reflective ∧ 0 < comps.object.material.transparency
        then
          let reflectance := schlick cosF comps
          ((acc.add surface).add (reflected.scale reflectance)).add
            (refracted.scale (1 - reflectance))
        else ((acc.add surface).add reflected).add refracted)
      Color.black
  termination_by remaining _ => (remaining, 1)

/-- World::reflected_color (src/src/scene/world.rs lines 214-231): black at
budget 0 or a reflective coefficient within EPSILON of 0; otherwise recurse
into color_at from the over point along the reflection vector with the
budget decremented, scaling by the coefficient. -/
def reflected_color {K : Type} [LinearOrderedField K] (sqrtF cosF : K → K) (w : World K) :
    ℕ → Computations K → Color K
  | 0, _ => Color.black
  | n + 1, comps =>
    if |comps.object.material.reflective - 0| < EPSILON then Color.black
    else
      (color_at sqrtF cosF w n ⟨comps.over_point, comps.reflectv⟩).scale
        comps.object.material.reflective
  termination_by n _ => (n, 0)

/-- World::refracted_color (src/src/scene/world.rs lines 233-275): black at
budget 0, an opaque material, or total internal reflection; otherwise
recurse into color_at from the under point along the refracted direction
with the budget decremented, scaling by the transparency. -/
def refracted_color {K : Type} [LinearOrderedField K] (sqrtF cosF : K → K) (w : World K) :
    ℕ → Computations K → Color K
  | 0, _ => Color.black
  | n + 1, comps =>
    if |comps.object.material.transparency - 0| < EPSILON then Color.black
    else
      if 1 < snell_sin2_t comps then Color.black
      else
        (color_at sqrtF cosF w n ⟨comps.under_point, refract_direction sqrtF comps⟩).scale
          comps.object.material.transparency
  termination_by n _ => (n, 0)

end

/-- C8: the reflection/refraction recursion is budget-bounded: both colors
are black immediately at remaining = 0 and when the relevant coefficient is
within EPSILON of 0, and otherwise each makes its single recursive call into
color_at with the budget decremented by one (refraction additionally
returning black under total internal reflection); the four functions are
total by well-founded recursion on the budget. -/
theorem c8_recursion_budget {K : Type} [LinearOrderedField K]
    (sqrtF cosF : K → K) (w : World K) :
    (∀ comps : Computations K, reflected_color sqrtF cosF w 0 comps = Color.black)
    ∧ (∀ comps : Computations K, refracted_color sqrtF cosF w 0 comps = Color.black)
    ∧ (∀ (n : ℕ) (comps : Computations K),
        |comps.object.material.reflective - 0| < EPSILON →
        reflected_color sqrtF cosF w n comps = Color.black)
    ∧ (∀ (n : ℕ) (comps : Computations K),
        |comps.object.material.transparency - 0| < EPSILON →
        refracted_color sqrtF cosF w n comps = Color.black)
    ∧ (∀ (n : ℕ) (comps : Computations K),
        ¬ |comps.object.material.reflective - 0| < EPSILON →
        reflected_color sqrtF cosF w (n + 1) comps =
          (color_at sqrtF cosF w n ⟨comps.over_point, comps.reflectv⟩).scale
            comps.object.material.reflective)
    ∧ (∀ (n : ℕ) (comps : Computations K),
        ¬ |comps.object.material.transparency - 0| < EPSILON →
        1 < snell_sin2_t comps →
        refracted_color sqrtF cosF w (n + 1) comps = Color.black)
    ∧ (∀ (n : ℕ) (comps : Computations K),
        ¬ |comps.object.material.transparency - 0| < EPSILON →
        ¬ 1 < snell_sin2_t comps →
        refracted_color sqrtF cosF w (n + 1) comps =
          (color_at sqrtF cosF w n
              ⟨comps.under_point, refract_direction sqrtF comps⟩).scale
            comps.object.material.transparency) := by
  refine ⟨?_, ?_, ?_, ?_, ?_, ?_, ?_⟩
  · intro comps
    rw [reflected_color]
  · intro comps
    rw [refracted_color]
  · intro n comps h
    match n with
    | 0 => rw [reflected_color]
    | n + 1 =>
      rw [reflected_color]
      rw [if_pos h]
  · intro n comps h
    match n with
    | 0 => rw [refracted_color]
    | n + 1 =>
      rw [refracted_color]
      rw [if_pos h]
  · intro n comps h
    rw [reflected_color]
    rw [if_neg h]
  · intro n comps h htir
    rw [refracted_color]
    rw [if_neg h, if_pos htir]
  · intro n comps h htir
    rw [refracted_color]
    rw [if_neg h, if_neg htir]

/-- A shading context over ℚ whose material has reflective and transparency
both 0 (the default Phong coefficients). -/
def c8Comps : Computations ℚ :=
  { time := 1
    object := ObjView.dflt
    point := Tuple.point 0 0 0
    over_point := Tuple.point 0 0 0
    under_point := Tuple.point 0 0 0
    n1 := 1
    n2 := 1
    eyev := Tuple.vector 0 0 1
    normalv := Tuple.vector 0 0 1
    reflectv := Tuple.vector 0 0 1
    inside := false }

/-- Witness for C8: on an empty world over ℚ, a budget-5 reflected color of
a non-reflective material is black, via the coefficient base case. -/
theorem c8_recursion_budget_witness :
    reflected_color (fun x : ℚ => x) (fun x : ℚ => x) ⟨[], []⟩ 5 c8Comps = Color.black
    ∧ refracted_color (fun x : ℚ => x) (fun x : ℚ => x) ⟨[], []⟩ 5 c8Comps = Color.black :=
  ⟨(c8_recursion_budget (fun x : ℚ => x) (fun x : ℚ => x) ⟨[], []⟩).2.2.1 5 c8Comps
      (by norm_num [c8Comps, ObjView.dflt, MaterialView.dflt, EPSILON]),
   (c8_recursion_budget (fun x : ℚ => x) (fun x : ℚ => x) ⟨[], []⟩).2.2.2.1 5 c8Comps
      (by norm_num [c8Comps, ObjView.dflt, MaterialView.dflt, EPSILON])⟩

end RT
